import Mathlib

/-!
Shallow embedding of `github_pr_stats.py` (repository `github-stats`).

The script fetches a user's pull requests from the GitHub search API,
enriches each search item with the full pull-request detail payload, and
prints a report grouped by repository.  The embedding below translates the
four functions of the source file — `fetch`, `search_prs`,
`fetch_pr_details` and `main` — into total Lean functions.

Modelling conventions:
* JSON values are the inductive `Json`; Python `None` is `Json.null`.
* Fallible Python code (subscription `d[k]`, attribute access, iteration)
  is embedded as `Except PyErr`; an uncaught Python exception is an
  `Except.error` value that the embedding propagates exactly where the
  source would let the exception escape.
* The HTTP transport is an oracle.  For the `fetch` function itself the
  oracle maps attempt indices to per-attempt outcomes (`Attempt`); for the
  rest of the pipeline the oracle maps the requested URL value to the
  `Option Json` result that `fetch` returns (`fetch` is total, so this is
  faithful).
* Loops without a structural bound (`while True` in `search_prs`) take a
  fuel parameter and return `none` when the fuel is exhausted, so that no
  theorem can silently assert anything about runs longer than the fuel.
* The thread pool in `main` submits one enrichment task per search item
  and collects results with `as_completed`; completion order is
  nondeterministic in the source, and the embedding collects results in
  submission order.  `Future.result()` re-raises an exception thrown inside
  a task, which the embedding models by propagating the `Except.error` of
  the first failing task.
-/

/-- JSON values as delivered by the HTTP layer.  Numbers are modelled as
integers (the script never does arithmetic on payload numbers). -/
inductive Json where
  | null
  | bool (b : Bool)
  | num (n : Int)
  | str (s : String)
  | arr (elems : List Json)
  | obj (fields : List (String × Json))

/-- Python truthiness (`if not data: ...`) for the JSON values above:
`None`, `False`, `0`, `""`, `[]` and `{}` are falsy. -/
def Json.isTruthy : Json → Bool
  | .null => false
  | .bool b => b
  | .num n => n != 0
  | .str s => s != ""
  | .arr xs => !xs.isEmpty
  | .obj fs => !fs.isEmpty

/-- Uncaught Python exceptions that the script can raise. -/
inductive PyErr where
  | keyError
  | typeError
  | valueError
  | indexError
  | attributeError
deriving DecidableEq

/-- First binding of a key in an object's field list (JSON objects have
unique keys, so first-match lookup models Python dict lookup). -/
def Json.lookupKey : List (String × Json) → String → Option Json
  | [], _ => none
  | (k, v) :: rest, key => if k == key then some v else Json.lookupKey rest key

/-- Python subscription `d[k]` with a string key: dict lookup raising
`KeyError` on a missing key, `TypeError` on any non-dict value. -/
def pyIndex (j : Json) (k : String) : Except PyErr Json :=
  match j with
  | .obj fs =>
    match Json.lookupKey fs k with
    | some v => .ok v
    | none => .error .keyError
  | _ => .error .typeError

/-- Python `d.get(k, default)`: only dicts have `.get`, so any other value
raises `AttributeError`. -/
def pyGet (j : Json) (k : String) (dflt : Json) : Except PyErr Json :=
  match j with
  | .obj fs => .ok ((Json.lookupKey fs k).getD dflt)
  | _ => .error .attributeError

/-- Substring test, used to model Python `needle in string`. -/
def strContainsSub (s pat : String) : Bool :=
  (List.range (s.length + 1)).any (fun i => pat.toList.isPrefixOf (s.toList.drop i))

/-- Python membership `k in d` for a string `k`: key membership for dicts,
element equality for lists (a string equals only an equal string),
substring test for strings, `TypeError` otherwise. -/
def pyContains (j : Json) (k : String) : Except PyErr Bool :=
  match j with
  | .obj fs => .ok (fs.any (fun kv => kv.1 == k))
  | .arr xs =>
    .ok (xs.any (fun x => match x with | .str s => s == k | _ => false))
  | .str s => .ok (strContainsSub s k)
  | _ => .error .typeError

/-- Python iteration (`list.extend(items)`): lists yield their elements,
dicts their keys, strings their characters; other values raise
`TypeError`. -/
def pyIter (j : Json) : Except PyErr (List Json) :=
  match j with
  | .arr xs => .ok xs
  | .obj fs => .ok (fs.map (fun kv => Json.str kv.1))
  | .str s => .ok (s.toList.map (fun c => Json.str (String.mk [c])))
  | _ => .error .typeError

/-- Python `len`. -/
def pyLen (j : Json) : Except PyErr Nat :=
  match j with
  | .arr xs => .ok xs.length
  | .obj fs => .ok fs.length
  | .str s => .ok s.length
  | _ => .error .typeError

/-! ## The Fetcher (`fetch`, source lines 18-49) -/

/-- Transport-level outcome of one HTTP GET attempt: either a response
with a status code and (for 200) a parsed JSON body, or a network-level
exception (`requests.RequestException`). -/
inductive Attempt where
  | resp (code : Nat) (payload : Json)
  | netExn

/-- The sleeps `fetch` performs: the polite post-success jitter
(`0.4 + uniform(0, 0.3)` seconds), the exponential backoff
(`2 ** attempt` seconds) after 403/429, and the fixed one-second wait
after a 5xx response or a network exception. -/
inductive SleepEvent where
  | jitter
  | backoff (secs : Nat)
  | fixedOne
deriving DecidableEq

/-- What one call of `fetch` did: its return value, how many HTTP attempts
it issued, and which sleeps it performed (in order). -/
structure FetchRes where
  result : Option Json
  attemptsMade : Nat
  sleeps : List SleepEvent

/-- The retry loop of `fetch` (`for attempt in range(retries)`), translated
branch for branch.  `t` maps the attempt index to that attempt's
transport outcome; `attempt` is the current loop index and the remaining
iteration count is the structural fuel.  Falling off the loop returns
`None`. -/
def fetchGo (t : Nat → Attempt) (attempt : Nat) : Nat → FetchRes
  | 0 => ⟨none, attempt, []⟩
  | fuel + 1 =>
    match t attempt with
    | .netExn =>
      let r := fetchGo t (attempt + 1) fuel
      ⟨r.result, r.attemptsMade, .fixedOne :: r.sleeps⟩
    | .resp code payload =>
      if code == 200 then ⟨some payload, attempt + 1, [.jitter]⟩
      else if code == 403 || code == 429 then
        let r := fetchGo t (attempt + 1) fuel
        ⟨r.result, r.attemptsMade, .backoff (2 ^ attempt) :: r.sleeps⟩
      else if 500 ≤ code then
        let r := fetchGo t (attempt + 1) fuel
        ⟨r.result, r.attemptsMade, .fixedOne :: r.sleeps⟩
      else ⟨none, attempt + 1, []⟩

/-- `fetch(url, retries=3)`.  The function is total: every Python
exception the body can raise is caught (`except requests.RequestException`),
so the caller only ever sees a JSON value or `None`. -/
def fetch (t : Nat → Attempt) (retries : Nat := 3) : FetchRes :=
  fetchGo t 0 retries

/-- An attempt outcome that `fetch` retries on: HTTP 403, HTTP 429, any
status of at least 500, or a network-level exception. -/
def retryEligible : Attempt → Bool
  | .netExn => true
  | .resp code _ => code == 403 || code == 429 || decide (500 ≤ code)

/-! ## The Searcher (`search_prs`, source lines 55-80) -/

def GITHUB_API : String := "https://api.github.com"

/-- URL of one search page
(`f"{GITHUB_API}/search/issues?q={query}&per_page=100&page={page}"`). -/
def searchUrl (query : String) (page : Nat) : String :=
  GITHUB_API ++ "/search/issues?q=" ++ query ++ "&per_page=100&page=" ++ toString page

/-- The search query built at source lines 59-61.  `finish` stands for the
Python variable `end`, which is a reserved word in Lean. -/
def buildQuery (username start finish : String) (label : Option String) : String :=
  let q := "author:" ++ username ++ "+type:pr+created:" ++ start ++ ".." ++ finish
  match label with
  | some l => q ++ "+label:" ++ l
  | none => q

/-- The `while True` pagination loop of `search_prs`, with fuel.  Returns
`none` when the fuel runs out before the loop terminates; otherwise the
accumulated item list together with the number of the last page requested.
`fetchJson` maps a URL value to the `Option Json` result of `fetch`. -/
def searchLoop (fetchJson : Json → Option Json) (query : String) :
    Nat → Nat → List Json → Option (Except PyErr (List Json × Nat))
  | 0, _, _ => none
  | fuel + 1, page, acc =>
    match fetchJson (.str (searchUrl query page)) with
    | none => some (.ok (acc, page))
    | some data =>
      if !data.isTruthy then some (.ok (acc, page))
      else
        match pyContains data "items" with
        | .error e => some (.error e)
        | .ok hasItems =>
          if !hasItems then some (.ok (acc, page))
          else
            match pyIndex data "items" with
            | .error e => some (.error e)
            | .ok items =>
              match pyIter items with
              | .error e => some (.error e)
              | .ok elems =>
                match pyLen items with
                | .error e => some (.error e)
                | .ok n =>
                  if n < 100 then some (.ok (acc ++ elems, page))
                  else searchLoop fetchJson query fuel (page + 1) (acc ++ elems)

/-- `search_prs(username, start, end, label)`: paginated search starting at
page 1 with an empty accumulator. -/
def search_prs (fetchJson : Json → Option Json) (username start finish : String)
    (label : Option String) (fuel : Nat) : Option (Except PyErr (List Json × Nat)) :=
  searchLoop fetchJson (buildQuery username start finish label) fuel 1 []

/-! ## The Detail Enricher (`fetch_pr_details`, source lines 86-102) -/

/-- The dict built at source lines 95-102.  Field values are raw JSON
values exactly as extracted from the detail payload. -/
structure PRRec where
  repo_name : Json
  repo_link : Json
  title : Json
  created_at : Json
  merged_at : Json
  pr_link : Json

/-- `fetch_pr_details(pr)`, translated line for line.  `Except.error`
models an exception escaping the function: the guarded accesses are only
`pr.get("pull_request", {}).get("url")` and the truthiness tests; the six
field extractions at lines 96-101 are plain subscriptions whose `KeyError`
or `TypeError` is not caught anywhere in the function. -/
def fetch_pr_details (fetchJson : Json → Option Json) (pr : Json) :
    Except PyErr (Option PRRec) :=
  match pyGet pr "pull_request" (.obj []) with
  | .error e => .error e
  | .ok prq =>
    match pyGet prq "url" .null with
    | .error e => .error e
    | .ok pr_url =>
      if !pr_url.isTruthy then .ok none
      else
        match fetchJson pr_url with
        | none => .ok none
        | some details =>
          if !details.isTruthy then .ok none
          else
            match pyIndex details "base" with
            | .error e => .error e
            | .ok base =>
              match pyIndex base "repo" with
              | .error e => .error e
              | .ok repo =>
                match pyIndex repo "full_name" with
                | .error e => .error e
                | .ok nm =>
                  match pyIndex repo "html_url" with
                  | .error e => .error e
                  | .ok link =>
                    match pyIndex details "title" with
                    | .error e => .error e
                    | .ok title =>
                      match pyIndex details "created_at" with
                      | .error e => .error e
                      | .ok created =>
                        match pyIndex details "merged_at" with
                        | .error e => .error e
                        | .ok merged =>
                          match pyIndex details "html_url" with
                          | .error e => .error e
                          | .ok prLink =>
                            .ok (some ⟨nm, link, title, created, merged, prLink⟩)

/-! ## The Concurrency Coordinator (`main`, source lines 126-132) -/

/-- The fan-out/collect phase of `main`: one `fetch_pr_details` task per
search item, results collected as tasks complete, `None` results dropped.
Collection order is modelled as submission order (the source's
`as_completed` order is nondeterministic); an exception raised inside a
task re-surfaces at `f.result()` and aborts `main`, modelled by
propagating the first task error. -/
def enrich_all (fetchJson : Json → Option Json) : List Json → Except PyErr (List PRRec)
  | [] => .ok []
  | pr :: rest =>
    match fetch_pr_details fetchJson pr with
    | .error e => .error e
    | .ok none => enrich_all fetchJson rest
    | .ok (some r) =>
      match enrich_all fetchJson rest with
      | .error e => .error e
      | .ok tail => .ok (r :: tail)

/-! ## The Aggregator (`main`, source lines 134-147) -/

/-- Python `==` between JSON values usable as dict keys.  Python treats
`True == 1` and `False == 0` as true (bool is an int subclass); values of
otherwise different types compare unequal; lists and dicts never reach
this comparison because they are unhashable. -/
def pyEqKey : Json → Json → Bool
  | .null, .null => true
  | .bool a, .bool b => a == b
  | .bool a, .num n => if a then n == 1 else n == 0
  | .num n, .bool b => if b then n == 1 else n == 0
  | .num a, .num b => a == b
  | .str a, .str b => a == b
  | _, _ => false

/-- Whether a JSON value may be used as a Python dict key
(`grouped[d["repo_name"]]` raises `TypeError` on a list or dict). -/
def hashable : Json → Bool
  | .arr _ => false
  | .obj _ => false
  | _ => true

/-- One step of `grouped[d["repo_name"]].append(d)` on a `defaultdict`:
append to the first group whose key equals the record's repository name,
or create a new group at the end (dict insertion order). -/
def addRec (acc : List (Json × List PRRec)) (d : PRRec) : List (Json × List PRRec) :=
  match acc with
  | [] => [(d.repo_name, [d])]
  | (k, l) :: rest =>
    if pyEqKey k d.repo_name then (k, l ++ [d]) :: rest
    else (k, l) :: addRec rest d

/-- The grouping loop at source lines 134-136, raising `TypeError` when a
record's repository name is unhashable. -/
def groupByRepoGo (acc : List (Json × List PRRec)) :
    List PRRec → Except PyErr (List (Json × List PRRec))
  | [] => .ok acc
  | d :: rest =>
    if hashable d.repo_name then groupByRepoGo (addRec acc d) rest
    else .error .typeError

/-- `grouped = defaultdict(list); for d in detailed_prs: grouped[...].append(d)`. -/
def groupByRepo (rs : List PRRec) : Except PyErr (List (Json × List PRRec)) :=
  groupByRepoGo [] rs

/-- Sort key of line 147 (`key=lambda x: x["created_at"]`), as a string.
On the string timestamps the script works with this is exactly Python's
comparison; Python's `sorted` would raise `TypeError` when comparing a
non-string key, so non-string values are collapsed to `""` and every
theorem about sorting assumes string timestamps. -/
def sortKey : Json → String
  | .str s => s
  | _ => ""

/-- Lexicographic comparison of character lists: Python's `<=` on
strings compares code points left to right, shorter is smaller. -/
def charListLe : List Char → List Char → Bool
  | [], _ => true
  | _ :: _, [] => false
  | a :: as, b :: bs => if a = b then charListLe as bs else decide (a < b)

/-- Python string `<=`, the comparison `sorted` performs on the keys. -/
def strLe (a b : String) : Bool := charListLe a.toList b.toList

/-- The ordering `sorted(pr_list, key=lambda x: x["created_at"])` sorts by. -/
def recLe (a b : PRRec) : Prop :=
  strLe (sortKey a.created_at) (sortKey b.created_at) = true

instance : DecidableRel recLe := fun a b =>
  inferInstanceAs (Decidable (strLe (sortKey a.created_at) (sortKey b.created_at) = true))

theorem charListLe_total (a b : List Char) : charListLe a b = true ∨ charListLe b a = true := by
  induction a generalizing b with
  | nil => exact .inl rfl
  | cons x xs ih =>
    cases b with
    | nil => exact .inr rfl
    | cons y ys =>
      by_cases hxy : x = y
      · subst hxy
        simpa [charListLe] using ih ys
      · rcases lt_or_gt_of_ne hxy with h | h
        · exact .inl (by simp [charListLe, hxy, h])
        · refine .inr (by simp [charListLe, Ne.symm hxy, h, not_lt_of_gt h])

theorem charListLe_trans {a b c : List Char} (hab : charListLe a b = true)
    (hbc : charListLe b c = true) : charListLe a c = true := by
  induction a generalizing b c with
  | nil => rfl
  | cons x xs ih =>
    cases b with
    | nil => simp [charListLe] at hab
    | cons y ys =>
      cases c with
      | nil => simp [charListLe] at hbc
      | cons z zs =>
        by_cases hxy : x = y <;> by_cases hyz : y = z
        · subst hxy; subst hyz
          simp only [charListLe, if_pos rfl] at hab hbc ⊢
          exact ih hab hbc
        · subst hxy
          simp only [charListLe, if_pos rfl, if_neg hyz] at hbc ⊢
          exact hbc
        · subst hyz
          simp only [charListLe, if_pos rfl, if_neg hxy] at hab ⊢
          exact hab
        · simp only [charListLe, if_neg hxy, if_neg hyz, decide_eq_true_eq] at hab hbc
          have hxz : x < z := lt_trans hab hbc
          simp [charListLe, ne_of_lt hxz, hxz]

instance : IsTotal PRRec recLe :=
  ⟨fun a b => charListLe_total (sortKey a.created_at).toList (sortKey b.created_at).toList⟩

instance : IsTrans PRRec recLe :=
  ⟨fun _ _ _ hab hbc => charListLe_trans hab hbc⟩

/-- `sorted(pr_list, key=lambda x: x["created_at"])`.  Python's `sorted`
is a stable sort with respect to the total preorder `recLe`; a stable sort
is extensionally unique, so the structurally recursive stable
`insertionSort` is an exact embedding of it. -/
def sortRecords (l : List PRRec) : List PRRec :=
  List.insertionSort recLe l

/-- The Aggregator of the specification: the grouping of lines 134-136
followed by the per-group sort of line 147, i.e. the grouped, ordered
content the report displays. -/
def aggregate (rs : List PRRec) : Except PyErr (List (Json × List PRRec)) :=
  (groupByRepo rs).map (fun gs => gs.map (fun g => (g.1, sortRecords g.2)))

/-- All records of a grouped structure, in display order. -/
def flattenGroups (gs : List (Json × List PRRec)) : List PRRec :=
  (gs.map Prod.snd).flatten

/-! ## The Reporter (`main`, source lines 142-162) -/

/-- Days of each month, as `datetime.strptime` validates them. -/
def daysInMonth (year month : Nat) : Nat :=
  if month == 2 then
    if year % 4 == 0 && (year % 100 != 0 || year % 400 == 0) then 29 else 28
  else if month == 4 || month == 6 || month == 9 || month == 11 then 30
  else 31

/-- Whether a string matches `datetime.strptime(s, "%Y-%m-%dT%H:%M:%SZ")`:
twenty characters `YYYY-MM-DDTHH:MM:SSZ`, all digit positions decimal
digits, and the field values in the ranges `datetime` accepts. -/
def validTs (s : String) : Bool :=
  match s.toList with
  | [y1, y2, y3, y4, da, m1, m2, db, d1, d2, tc, h1, h2, ca, i1, i2, cb, s1, s2, z] =>
    ([y1, y2, y3, y4, m1, m2, d1, d2, h1, h2, i1, i2, s1, s2].all Char.isDigit) &&
    da == '-' && db == '-' && tc == 'T' && ca == ':' && cb == ':' && z == 'Z' &&
    (let year := (y1.toNat - 48) * 1000 + (y2.toNat - 48) * 100 + (y3.toNat - 48) * 10 + (y4.toNat - 48)
     let month := (m1.toNat - 48) * 10 + m2.toNat - 48
     let day := (d1.toNat - 48) * 10 + d2.toNat - 48
     let hour := (h1.toNat - 48) * 10 + h2.toNat - 48
     let minute := (i1.toNat - 48) * 10 + i2.toNat - 48
     let second := (s1.toNat - 48) * 10 + s2.toNat - 48
     1 ≤ year && 1 ≤ month && month ≤ 12 && 1 ≤ day && day ≤ daysInMonth year month &&
     hour ≤ 23 && minute ≤ 59 && second ≤ 59)
  | _ => false

/-- `datetime.strptime(v, "%Y-%m-%dT%H:%M:%SZ").strftime("%Y-%m-%d")`:
`TypeError` on a non-string, `ValueError` on a string not matching the
format, else the date part, which for a valid timestamp is exactly the
first ten characters. -/
def formatDateField (j : Json) : Except PyErr String :=
  match j with
  | .str s => if validTs s then .ok (String.mk (s.toList.take 10)) else .error .valueError
  | _ => .error .typeError

/-- The `merged` expression at source lines 149-153: the formatted merge
date when `pr["merged_at"]` is truthy, the literal `"Not merged yet"`
otherwise (in particular for a JSON `null`). -/
def renderMerged (m : Json) : Except PyErr String :=
  if m.isTruthy then formatDateField m else .ok "Not merged yet"

/-- One printed report entry for a record (source lines 148-160). -/
structure RenderedPR where
  title : Json
  created : String
  merged : String
  pr_link : Json

/-- Lines 148-153 for one record: `created` is computed first, then
`merged`; an exception in either aborts `main`. -/
def renderRecord (r : PRRec) : Except PyErr RenderedPR :=
  match formatDateField r.created_at with
  | .error e => .error e
  | .ok created =>
    match renderMerged r.merged_at with
    | .error e => .error e
    | .ok merged => .ok ⟨r.title, created, merged, r.pr_link⟩

def renderList : List PRRec → Except PyErr (List RenderedPR)
  | [] => .ok []
  | r :: rest =>
    match renderRecord r with
    | .error e => .error e
    | .ok x =>
      match renderList rest with
      | .error e => .error e
      | .ok xs => .ok (x :: xs)

/-- The report loop at source lines 142-162: per group, the repository
link is taken from the first record of the yet unsorted group list
(`pr_list[0]["repo_link"]`), and the entries are rendered from
`sorted(pr_list, key=lambda x: x["created_at"])`. -/
def renderGroups : List (Json × List PRRec) → Except PyErr (List (Json × Json × List RenderedPR))
  | [] => .ok []
  | (k, l) :: rest =>
    match l with
    | [] => .error .indexError
    | r0 :: _ =>
      match renderList (sortRecords l) with
      | .error e => .error e
      | .ok entries =>
        match renderGroups rest with
        | .error e => .error e
        | .ok tail => .ok ((k, r0.repo_link, entries) :: tail)

/-! ## `main` (source lines 108-163) -/

/-- The parsed command-line arguments.  `finish` stands for `args.end`. -/
structure Args where
  user : String
  start : String
  finish : String
  label : Option String

/-- `start = f"{args.start}T00:00:00Z"` (source line 116). -/
def mainStart (a : Args) : String := a.start ++ "T00:00:00Z"

/-- `end = f"{args.end}T23:59:59Z"` (source line 117). -/
def mainEnd (a : Args) : String := a.finish ++ "T23:59:59Z"

/-- Observable outcome of a completed run of `main`: the process exit
status, whether the "No PRs found." notice was printed, how many
enrichment tasks were submitted to the worker pool, the grouped and
per-group-sorted records the report displays, and the rendered entries. -/
structure MainOut where
  exitCode : Nat
  noResultsNotice : Bool
  enrichCalls : Nat
  groups : List (Json × List PRRec)
  rendered : List (Json × Json × List RenderedPR)

/-- `main()`.  `argv = none` models an argument-parsing failure, on which
`argparse` exits the process with status 2 before any network activity.
An `Except.error` models an uncaught exception, which terminates the
process with a traceback and exit status 1.  `fuel` bounds the pagination
loop; `none` means the loop did not finish within the fuel. -/
def mainRun : Option Args → (Json → Option Json) → Nat → Option (Except PyErr MainOut)
  | none, _, _ => some (.ok ⟨2, false, 0, [], []⟩)
  | some a, fetchJson, fuel =>
    match search_prs fetchJson a.user (mainStart a) (mainEnd a) a.label fuel with
    | none => none
    | some (.error e) => some (.error e)
    | some (.ok (prs, _)) =>
      if prs.isEmpty then some (.ok ⟨0, true, 0, [], []⟩)
      else
        match enrich_all fetchJson prs with
        | .error e => some (.error e)
        | .ok detailed =>
          match groupByRepo detailed with
          | .error e => some (.error e)
          | .ok gs =>
            match renderGroups gs with
            | .error e => some (.error e)
            | .ok rend =>
              some (.ok ⟨0, false, prs.length, gs.map (fun g => (g.1, sortRecords g.2)), rend⟩)

/-- The records the final report lists, in display order. -/
def reportRecords (out : MainOut) : List PRRec := flattenGroups out.groups

/-! ## Theorems about the Fetcher -/

/-- A retry-eligible response is not a 200 and selects one of the two
retry branches, so one loop step just moves on to the next attempt. -/
theorem fetchGo_retry_step (t : Nat → Attempt) (attempt fuel : Nat)
    (h : retryEligible (t attempt) = true) :
    (fetchGo t attempt (fuel + 1)).result = (fetchGo t (attempt + 1) fuel).result ∧
    (fetchGo t attempt (fuel + 1)).attemptsMade = (fetchGo t (attempt + 1) fuel).attemptsMade := by
  cases ht : t attempt with
  | netExn => simp [fetchGo, ht]
  | resp code payload =>
    rw [ht] at h
    simp only [retryEligible, Bool.or_eq_true, beq_iff_eq, decide_eq_true_eq] at h
    have h200 : (code == 200) = false := by
      rcases h with (h | h) | h <;> simp <;> omega
    by_cases h43 : (code == 403 || code == 429) = true
    · simp [fetchGo, ht, h200, h43]
    · have h500 : 500 ≤ code := by
        rcases h with (h | h) | h
        · exact absurd (by simp [h]) h43
        · exact absurd (by simp [h]) h43
        · exact h
      simp [fetchGo, ht, h200, h43, h500]

/-- If attempt `attempt + k` succeeds within the remaining fuel and every
earlier attempt from `attempt` on is retry-eligible, the loop returns the
successful payload after exactly `attempt + k + 1` attempts. -/
theorem fetchGo_success (t : Nat → Attempt) :
    ∀ (k attempt fuel : Nat) (j : Json), k < fuel →
      t (attempt + k) = .resp 200 j →
      (∀ i, i < k → retryEligible (t (attempt + i)) = true) →
      (fetchGo t attempt fuel).result = some j ∧
      (fetchGo t attempt fuel).attemptsMade = attempt + k + 1 := by
  intro k
  induction k with
  | zero =>
    intro attempt fuel j hk hsucc _
    obtain ⟨f, rfl⟩ : ∃ f, fuel = f + 1 := ⟨fuel - 1, by omega⟩
    rw [Nat.add_zero] at hsucc
    simp [fetchGo, hsucc]
  | succ k ih =>
    intro attempt fuel j hk hsucc hpre
    obtain ⟨f, rfl⟩ : ∃ f, fuel = f + 1 := ⟨fuel - 1, by omega⟩
    have h0 : retryEligible (t attempt) = true := by
      simpa using hpre 0 (Nat.succ_pos k)
    obtain ⟨hres, hatt⟩ := fetchGo_retry_step t attempt f h0
    have hsucc1 : t (attempt + 1 + k) = .resp 200 j := by
      rw [show attempt + 1 + k = attempt + (k + 1) by omega]; exact hsucc
    have hpre1 : ∀ i, i < k → retryEligible (t (attempt + 1 + i)) = true := by
      intro i hi
      rw [show attempt + 1 + i = attempt + (i + 1) by omega]
      exact hpre (i + 1) (by omega)
    obtain ⟨hres1, hatt1⟩ := ih (attempt + 1) f j (by omega) hsucc1 hpre1
    refine ⟨hres.trans hres1, hatt.trans (hatt1.trans (by omega))⟩

/-- If every attempt within the fuel is retry-eligible, the loop exhausts
its attempts and returns `None`. -/
theorem fetchGo_exhaust (t : Nat → Attempt) :
    ∀ (fuel attempt : Nat), (∀ i, i < fuel → retryEligible (t (attempt + i)) = true) →
      (fetchGo t attempt fuel).result = none ∧
      (fetchGo t attempt fuel).attemptsMade = attempt + fuel := by
  intro fuel
  induction fuel with
  | zero => intro attempt _; exact ⟨rfl, rfl⟩
  | succ f ih =>
    intro attempt hpre
    have h0 : retryEligible (t attempt) = true := by
      simpa using hpre 0 (Nat.succ_pos f)
    obtain ⟨hres, hatt⟩ := fetchGo_retry_step t attempt f h0
    have hpre1 : ∀ i, i < f → retryEligible (t (attempt + 1 + i)) = true := by
      intro i hi
      rw [show attempt + 1 + i = attempt + (i + 1) by omega]
      exact hpre (i + 1) (by omega)
    obtain ⟨hres1, hatt1⟩ := ih (attempt + 1) hpre1
    exact ⟨hres.trans hres1, hatt.trans (hatt1.trans (by omega))⟩

/-- C2: for every sequence of per-attempt outcomes in which some attempt
`k` at or before the retry ceiling of 3 returns HTTP 200 after earlier
attempts that are all retry-eligible (403, 429, status at least 500, or a
network-level exception), `fetch` returns the parsed payload of the
successful attempt, having made exactly `k + 1` attempts; and when all 3
attempts are retry-eligible, `fetch` returns absence only after
exhausting all 3 attempts.  `fetch` is a total function into
`Option`-valued results, so no exception reaches its caller. -/
theorem fetch_retry_success_spec :
    (∀ (t : Nat → Attempt) (k : Nat) (j : Json),
      k < 3 → t k = .resp 200 j → (∀ i, i < k → retryEligible (t i) = true) →
      (fetch t 3).result = some j ∧ (fetch t 3).attemptsMade = k + 1) ∧
    (∀ t : Nat → Attempt, (∀ i, i < 3 → retryEligible (t i) = true) →
      (fetch t 3).result = none ∧ (fetch t 3).attemptsMade = 3) := by
  constructor
  · intro t k j hk hsucc hpre
    have := fetchGo_success t k 0 3 j hk (by simpa using hsucc) (by simpa using hpre)
    simpa [fetch] using this
  · intro t hpre
    have := fetchGo_exhaust t 3 0 (by simpa using hpre)
    simpa [fetch] using this

/-- Transport stub for the C2 witness: a 503, then a 429, then a 200. -/
def wRetryT : Nat → Attempt := fun i =>
  if i = 0 then .resp 503 .null
  else if i = 1 then .resp 429 .null
  else .resp 200 (.str "ok")

/-- Witness for C2: after a 503 and a 429, the third attempt's payload is
returned and three attempts were made. -/
theorem fetch_retry_success_spec_witness :
    (fetch wRetryT 3).result = some (.str "ok") ∧ (fetch wRetryT 3).attemptsMade = 3 :=
  fetch_retry_success_spec.1 wRetryT 2 (.str "ok") (by omega) rfl
    (fun i hi => by interval_cases i <;> rfl)

/-- C3: a first attempt answered by a status that is not 200, not 403,
not 429 and below 500 (for example 404) makes `fetch` return absence
after exactly one attempt, with no sleep performed at all. -/
theorem fetch_no_retry_spec (t : Nat → Attempt) (code : Nat) (payload : Json)
    (h0 : t 0 = .resp code payload) (h200 : code ≠ 200) (h403 : code ≠ 403)
    (h429 : code ≠ 429) (h500 : code < 500) :
    fetch t 3 = ⟨none, 1, []⟩ := by
  have e200 : (code == 200) = false := by simp [h200]
  have e403 : (code == 403) = false := by simp [h403]
  have e429 : (code == 429) = false := by simp [h429]
  simp [fetch, fetchGo, h0, e200, e403, e429, Nat.not_le.mpr h500]

/-- Transport stub for the C3 witness: every attempt yields a 404. -/
def wNotFoundT : Nat → Attempt := fun _ => .resp 404 .null

/-- Witness for C3 at status 404. -/
theorem fetch_no_retry_spec_witness : fetch wNotFoundT 3 = ⟨none, 1, []⟩ :=
  fetch_no_retry_spec wNotFoundT 404 .null rfl (by omega) (by omega) (by omega) (by omega)

/-! ## Theorems about the Searcher -/

/-- A page whose fetch succeeds with a truthy payload carrying an `items`
array `xs`. -/
def PageHas (f : Json → Option Json) (q : String) (p : Nat) (xs : List Json) : Prop :=
  ∃ d, f (.str (searchUrl q p)) = some d ∧ d.isTruthy = true ∧
    pyContains d "items" = .ok true ∧ pyIndex d "items" = .ok (.arr xs)

/-- A page at which the loop stops without touching items: the fetch
returned absence, or a falsy payload, or a payload without an `items`
field. -/
def StopPage (f : Json → Option Json) (q : String) (p : Nat) : Prop :=
  f (.str (searchUrl q p)) = none ∨
  ∃ d, f (.str (searchUrl q p)) = some d ∧
    (d.isTruthy = false ∨ pyContains d "items" = .ok false)

/-- The items of pages `start, start + 1, ..., start + n - 1`,
concatenated. -/
def pagesSeg (its : Nat → List Json) (start n : Nat) : List Json :=
  ((List.range' start n).map its).flatten

theorem pagesSeg_succ (its : Nat → List Json) (start n : Nat) :
    pagesSeg its start (n + 1) = its start ++ pagesSeg its (start + 1) n := by
  simp [pagesSeg, List.range'_succ]

/-- One loop iteration on a full page (100 items) appends the items and
moves to the next page. -/
theorem searchLoop_page_full (f : Json → Option Json) (q : String) (page : Nat)
    (acc : List Json) (fuel : Nat) (xs : List Json) (h : PageHas f q page xs)
    (hlen : xs.length = 100) :
    searchLoop f q (fuel + 1) page acc = searchLoop f q fuel (page + 1) (acc ++ xs) := by
  obtain ⟨d, hd, htr, hcont, hidx⟩ := h
  simp [searchLoop, hd, htr, hcont, hidx, pyIter, pyLen, hlen]

/-- One loop iteration on a short page (< 100 items) appends the items
and stops. -/
theorem searchLoop_page_last (f : Json → Option Json) (q : String) (page : Nat)
    (acc : List Json) (fuel : Nat) (xs : List Json) (h : PageHas f q page xs)
    (hlen : xs.length < 100) :
    searchLoop f q (fuel + 1) page acc = some (.ok (acc ++ xs, page)) := by
  obtain ⟨d, hd, htr, hcont, hidx⟩ := h
  simp [searchLoop, hd, htr, hcont, hidx, pyIter, pyLen, hlen]

/-- One loop iteration on a stop page keeps the accumulator and stops. -/
theorem searchLoop_page_stop (f : Json → Option Json) (q : String) (page : Nat)
    (acc : List Json) (fuel : Nat) (h : StopPage f q page) :
    searchLoop f q (fuel + 1) page acc = some (.ok (acc, page)) := by
  rcases h with hd | ⟨d, hd, hrest⟩
  · simp [searchLoop, hd]
  · rcases hrest with htr | hcont
    · simp [searchLoop, hd, htr]
    · by_cases htr : d.isTruthy
      · simp [searchLoop, hd, htr, hcont]
      · simp [searchLoop, hd, htr]

/-- Running the loop over `m` full pages followed by a short page. -/
theorem searchLoop_run_last (f : Json → Option Json) (q : String) (its : Nat → List Json) :
    ∀ (m page : Nat) (acc : List Json) (fuel : Nat), m + 1 ≤ fuel →
      (∀ p, page ≤ p → p < page + m → PageHas f q p (its p) ∧ (its p).length = 100) →
      PageHas f q (page + m) (its (page + m)) → (its (page + m)).length < 100 →
      searchLoop f q fuel page acc = some (.ok (acc ++ pagesSeg its page (m + 1), page + m)) := by
  intro m
  induction m with
  | zero =>
    intro page acc fuel hfuel _ hlast hshort
    obtain ⟨fl, rfl⟩ : ∃ fl, fuel = fl + 1 := ⟨fuel - 1, by omega⟩
    rw [Nat.add_zero] at hlast hshort
    rw [searchLoop_page_last f q page acc fl (its page) hlast hshort]
    simp [pagesSeg]
  | succ m ih =>
    intro page acc fuel hfuel hfull hlast hshort
    obtain ⟨fl, rfl⟩ : ∃ fl, fuel = fl + 1 := ⟨fuel - 1, by omega⟩
    obtain ⟨hp, hl⟩ := hfull page (le_refl page) (by omega)
    rw [searchLoop_page_full f q page acc fl (its page) hp hl]
    have hfull1 : ∀ p, page + 1 ≤ p → p < page + 1 + m →
        PageHas f q p (its p) ∧ (its p).length = 100 := by
      intro p h1 h2; exact hfull p (by omega) (by omega)
    have hlast1 : PageHas f q (page + 1 + m) (its (page + 1 + m)) := by
      rw [show page + 1 + m = page + (m + 1) by omega]; exact hlast
    have hshort1 : (its (page + 1 + m)).length < 100 := by
      rw [show page + 1 + m = page + (m + 1) by omega]; exact hshort
    rw [ih (page + 1) (acc ++ its page) fl (by omega) hfull1 hlast1 hshort1]
    have harr : acc ++ its page ++ pagesSeg its (page + 1) (m + 1) =
        acc ++ pagesSeg its page (m + 1 + 1) := by
      rw [pagesSeg_succ its page (m + 1), List.append_assoc]
    rw [harr, show page + 1 + m = page + (m + 1) by omega]

/-- Running the loop over `m` full pages followed by a stop page. -/
theorem searchLoop_run_stop (f : Json → Option Json) (q : String) (its : Nat → List Json) :
    ∀ (m page : Nat) (acc : List Json) (fuel : Nat), m + 1 ≤ fuel →
      (∀ p, page ≤ p → p < page + m → PageHas f q p (its p) ∧ (its p).length = 100) →
      StopPage f q (page + m) →
      searchLoop f q fuel page acc = some (.ok (acc ++ pagesSeg its page m, page + m)) := by
  intro m
  induction m with
  | zero =>
    intro page acc fuel hfuel _ hstop
    obtain ⟨fl, rfl⟩ : ∃ fl, fuel = fl + 1 := ⟨fuel - 1, by omega⟩
    rw [Nat.add_zero] at hstop
    rw [searchLoop_page_stop f q page acc fl hstop]
    simp [pagesSeg]
  | succ m ih =>
    intro page acc fuel hfuel hfull hstop
    obtain ⟨fl, rfl⟩ : ∃ fl, fuel = fl + 1 := ⟨fuel - 1, by omega⟩
    obtain ⟨hp, hl⟩ := hfull page (le_refl page) (by omega)
    rw [searchLoop_page_full f q page acc fl (its page) hp hl]
    have hfull1 : ∀ p, page + 1 ≤ p → p < page + 1 + m →
        PageHas f q p (its p) ∧ (its p).length = 100 := by
      intro p h1 h2; exact hfull p (by omega) (by omega)
    have hstop1 : StopPage f q (page + 1 + m) := by
      rw [show page + 1 + m = page + (m + 1) by omega]; exact hstop
    rw [ih (page + 1) (acc ++ its page) fl (by omega) hfull1 hstop1]
    have harr : acc ++ its page ++ pagesSeg its (page + 1) m =
        acc ++ pagesSeg its page (m + 1) := by
      rw [pagesSeg_succ its page m, List.append_assoc]
    rw [harr, show page + 1 + m = page + (m + 1) by omega]

/-- C4: the Searcher requests pages sequentially from page 1; as long as
each page's payload is truthy, has an `items` array of exactly 100
elements, the loop appends the items and continues; it stops on the first
page whose items count is below 100 (appending that page's items), and it
stops on the first page whose fetch returns absence, a falsy payload or a
payload without an `items` field (appending nothing); in both cases the
number of pages requested is the stop page's number. -/
theorem search_pagination_spec :
    (∀ (f : Json → Option Json) (u s e : String) (lab : Option String)
      (its : Nat → List Json) (k fuel : Nat), 1 ≤ k → k ≤ fuel →
      (∀ p, 1 ≤ p → p < k →
        PageHas f (buildQuery u s e lab) p (its p) ∧ (its p).length = 100) →
      PageHas f (buildQuery u s e lab) k (its k) → (its k).length < 100 →
      search_prs f u s e lab fuel = some (.ok (pagesSeg its 1 k, k))) ∧
    (∀ (f : Json → Option Json) (u s e : String) (lab : Option String)
      (its : Nat → List Json) (k fuel : Nat), 1 ≤ k → k ≤ fuel →
      (∀ p, 1 ≤ p → p < k →
        PageHas f (buildQuery u s e lab) p (its p) ∧ (its p).length = 100) →
      StopPage f (buildQuery u s e lab) k →
      search_prs f u s e lab fuel = some (.ok (pagesSeg its 1 (k - 1), k))) := by
  constructor
  · intro f u s e lab its k fuel hk hfuel hfull hlast hshort
    have := searchLoop_run_last f (buildQuery u s e lab) its (k - 1) 1 [] fuel
      (by omega)
      (by intro p h1 h2; exact hfull p h1 (by omega))
      (by rw [show 1 + (k - 1) = k by omega]; exact hlast)
      (by rw [show 1 + (k - 1) = k by omega]; exact hshort)
    rw [show k - 1 + 1 = k by omega] at this
    rw [show (1 : Nat) + (k - 1) = k by omega] at this
    simpa [search_prs] using this
  · intro f u s e lab its k fuel hk hfuel hfull hstop
    have := searchLoop_run_stop f (buildQuery u s e lab) its (k - 1) 1 [] fuel
      (by omega)
      (by intro p h1 h2; exact hfull p h1 (by omega))
      (by rw [show 1 + (k - 1) = k by omega]; exact hstop)
    rw [show (1 : Nat) + (k - 1) = k by omega] at this
    simpa [search_prs] using this

/-- Per-page items of the C4 witness stub: pages of sizes 100, 100, 37. -/
def wItems : Nat → List Json := fun p =>
  if p = 1 then List.replicate 100 .null
  else if p = 2 then List.replicate 100 .null
  else if p = 3 then List.replicate 37 .null
  else []

/-- The query of the C4 witness run. -/
def wQ : String :=
  buildQuery "alice" "2024-01-01T00:00:00Z" "2024-12-31T23:59:59Z" none

/-- Fetch oracle of the C4 witness: three search pages, nothing else. -/
def wSearchF : Json → Option Json := fun j =>
  match j with
  | .str s =>
    if s == searchUrl wQ 1 then some (.obj [("items", .arr (wItems 1))])
    else if s == searchUrl wQ 2 then some (.obj [("items", .arr (wItems 2))])
    else if s == searchUrl wQ 3 then some (.obj [("items", .arr (wItems 3))])
    else none
  | _ => none

/-- Witness for C4: with stub pages of sizes 100, 100, 37, exactly 3
pages are requested and 237 items are returned. -/
theorem search_pagination_spec_witness :
    search_prs wSearchF "alice" "2024-01-01T00:00:00Z" "2024-12-31T23:59:59Z" none 3 =
      some (.ok (pagesSeg wItems 1 3, 3)) ∧ (pagesSeg wItems 1 3).length = 237 := by
  constructor
  · refine search_pagination_spec.1 wSearchF "alice" "2024-01-01T00:00:00Z"
      "2024-12-31T23:59:59Z" none wItems 3 3 (by omega) (le_refl 3) ?_ ?_ ?_
    · intro p h1 h2
      interval_cases p
      · exact ⟨⟨.obj [("items", .arr (wItems 1))], rfl, rfl, rfl, rfl⟩, rfl⟩
      · exact ⟨⟨.obj [("items", .arr (wItems 2))], rfl, rfl, rfl, rfl⟩, rfl⟩
    · exact ⟨.obj [("items", .arr (wItems 3))], rfl, rfl, rfl, rfl⟩
    · simp [wItems]
  · rfl

/-! ## Theorems about the Aggregator -/

/-- Each group of `aggregate`'s output, and every group list handed to
`renderGroups`, is sorted by `recLe`. -/
theorem aggregate_group_sorted (rs : List PRRec) (gs : List (Json × List PRRec))
    (hagg : aggregate rs = .ok gs) : ∀ g ∈ gs, List.Sorted recLe g.2 := by
  intro g hg
  unfold aggregate at hagg
  cases h0 : groupByRepo rs with
  | error e => rw [h0] at hagg; simp [Except.map] at hagg
  | ok gs0 =>
    rw [h0] at hagg
    simp only [Except.map, Except.ok.injEq] at hagg
    subst hagg
    obtain ⟨g0, _, rfl⟩ := List.mem_map.mp hg
    exact List.sorted_insertionSort recLe g0.2

/-- Structural facts about a grouped structure that the regrouping
argument needs: every key is a string, every group is nonempty, every
record sits under its own repository name, and the keys are distinct. -/
def KeyedGroups (gs : List (Json × List PRRec)) : Prop :=
  ∀ g ∈ gs, (∃ s, g.1 = Json.str s) ∧ g.2 ≠ [] ∧ (∀ r ∈ g.2, r.repo_name = g.1)

def DistinctKeys (gs : List (Json × List PRRec)) : Prop :=
  (gs.map Prod.fst).Pairwise (fun a b => a ≠ b)

theorem pyEqKey_str (a b : String) : pyEqKey (Json.str a) (Json.str b) = (a == b) := rfl

/-- The keys after one `addRec` step are the old keys, possibly with the
new record's repository name appended. -/
theorem addRec_key_mem (acc : List (Json × List PRRec)) (d : PRRec) :
    ∀ x ∈ (addRec acc d).map Prod.fst, x ∈ acc.map Prod.fst ∨ x = d.repo_name := by
  induction acc with
  | nil => intro x hx; simp [addRec] at hx; exact .inr hx
  | cons g rest ih =>
    obtain ⟨k, l⟩ := g
    intro x hx
    by_cases hk : pyEqKey k d.repo_name = true
    · simp only [addRec, if_pos hk, List.map_cons, List.mem_cons] at hx ⊢
      tauto
    · simp only [addRec, if_neg hk, List.map_cons, List.mem_cons] at hx ⊢
      rcases hx with rfl | hx
      · exact .inl (.inl rfl)
      · rcases ih x hx with h | h
        · exact .inl (.inr h)
        · exact .inr h

/-- `addRec` preserves the grouping invariants when the incoming record's
repository name is a string. -/
theorem addRec_wf (acc : List (Json × List PRRec)) (d : PRRec) (s : String)
    (hd : d.repo_name = Json.str s) (hkg : KeyedGroups acc) (hdk : DistinctKeys acc) :
    KeyedGroups (addRec acc d) ∧ DistinctKeys (addRec acc d) := by
  induction acc with
  | nil =>
    refine ⟨?_, ?_⟩
    · intro g hg
      simp only [addRec, List.mem_singleton] at hg
      subst hg
      exact ⟨⟨s, hd⟩, by simp, by intro r hr; simp at hr; subst hr; rfl⟩
    · simp [addRec, DistinctKeys]
  | cons g rest ih =>
    obtain ⟨k, l⟩ := g
    have hkgrest : KeyedGroups rest := fun g hg => hkg g (List.mem_cons_of_mem _ hg)
    have hdkrest : DistinctKeys rest := (List.pairwise_cons.mp hdk).2
    have hkhead := hkg (k, l) (List.mem_cons_self _ _)
    obtain ⟨⟨ks, hks⟩, hlne, hlmem⟩ := hkhead
    have hks2 : k = Json.str ks := hks
    by_cases hk : pyEqKey k d.repo_name = true
    · have hkd : d.repo_name = k := by
        rw [hks2, hd, pyEqKey_str] at hk
        rw [hd, hks2]
        exact congrArg Json.str (eq_of_beq hk).symm
      constructor
      · intro g hg
        simp only [addRec, if_pos hk, List.mem_cons] at hg
        rcases hg with rfl | hg
        · refine ⟨⟨ks, hks⟩, by simp, ?_⟩
          intro r hr
          rcases List.mem_append.mp hr with hr | hr
          · exact hlmem r hr
          · simp only [List.mem_singleton] at hr; subst hr; exact hkd
        · exact hkg g (List.mem_cons_of_mem _ hg)
      · have : (addRec ((k, l) :: rest) d).map Prod.fst = ((k, l) :: rest).map Prod.fst := by
          simp [addRec, if_pos hk]
        unfold DistinctKeys
        rw [this]
        exact hdk
    · obtain ⟨ihkg, ihdk⟩ := ih hkgrest hdkrest
      constructor
      · intro g hg
        simp only [addRec, if_neg hk, List.mem_cons] at hg
        rcases hg with rfl | hg
        · exact ⟨⟨ks, hks⟩, hlne, hlmem⟩
        · exact ihkg g hg
      · unfold DistinctKeys
        simp only [addRec, if_neg hk, List.map_cons]
        refine List.pairwise_cons.mpr ⟨?_, ihdk⟩
        intro x hx
        rcases addRec_key_mem rest d x hx with h | h
        · exact (List.pairwise_cons.mp hdk).1 x h
        · subst h
          intro hkx
          exact hk (by rw [← hkx, hks2, pyEqKey_str]; simp)

/-- Processing a prefix of hashable-named records first. -/
theorem groupByRepoGo_append (xs ys : List PRRec) :
    ∀ acc, (∀ r ∈ xs, hashable r.repo_name = true) →
      groupByRepoGo acc (xs ++ ys) = groupByRepoGo (xs.foldl addRec acc) ys := by
  induction xs with
  | nil => intro acc _; rfl
  | cons d ds ih =>
    intro acc hh
    have hd : hashable d.repo_name = true := hh d (List.mem_cons_self _ _)
    simp only [List.cons_append, groupByRepoGo, if_pos hd, List.foldl_cons]
    exact ih (addRec acc d) (fun r hr => hh r (List.mem_cons_of_mem _ hr))

/-- On hashable-named records the grouping loop is a left fold. -/
theorem groupByRepoGo_ok (xs : List PRRec) :
    ∀ acc, (∀ r ∈ xs, hashable r.repo_name = true) →
      groupByRepoGo acc xs = .ok (xs.foldl addRec acc) := by
  induction xs with
  | nil => intro acc _; rfl
  | cons d ds ih =>
    intro acc hh
    have hd : hashable d.repo_name = true := hh d (List.mem_cons_self _ _)
    simp only [groupByRepoGo, if_pos hd, List.foldl_cons]
    exact ih (addRec acc d) (fun r hr => hh r (List.mem_cons_of_mem _ hr))

/-- Records that all carry the head group's own (string) key are appended
to the head group, in order. -/
theorem foldl_addRec_fill (k : Json) (ks : String) (hk : k = Json.str ks) :
    ∀ (xs l0 : List PRRec) (rest : List (Json × List PRRec)),
      (∀ r ∈ xs, r.repo_name = k) →
      xs.foldl addRec ((k, l0) :: rest) = (k, l0 ++ xs) :: rest := by
  intro xs
  induction xs with
  | nil => intro l0 rest _; simp
  | cons d ds ih =>
    intro l0 rest hall
    have hd : d.repo_name = k := hall d (List.mem_cons_self _ _)
    have hkey : pyEqKey k d.repo_name = true := by
      rw [hd, hk, pyEqKey_str]; simp
    simp only [List.foldl_cons, addRec, if_pos hkey]
    rw [ih (l0 ++ [d]) rest (fun r hr => hall r (List.mem_cons_of_mem _ hr))]
    simp

/-- Records whose keys all differ from the head group's key leave the
head group untouched. -/
theorem foldl_addRec_skip (k : Json) (l0 : List PRRec) :
    ∀ (xs : List PRRec) (rest : List (Json × List PRRec)),
      (∀ r ∈ xs, pyEqKey k r.repo_name = false) →
      xs.foldl addRec ((k, l0) :: rest) = (k, l0) :: xs.foldl addRec rest := by
  intro xs
  induction xs with
  | nil => intro rest _; rfl
  | cons d ds ih =>
    intro rest hall
    have hd : pyEqKey k d.repo_name = false := hall d (List.mem_cons_self _ _)
    simp only [List.foldl_cons, addRec, hd, Bool.false_eq_true, if_false]
    exact ih (addRec rest d) (fun r hr => hall r (List.mem_cons_of_mem _ hr))

/-- Every record of a keyed grouped structure carries its group's string
key as its repository name. -/
theorem flattenGroups_str (gs : List (Json × List PRRec)) (hkg : KeyedGroups gs) :
    ∀ r ∈ flattenGroups gs, ∃ s, r.repo_name = Json.str s := by
  intro r hr
  simp only [flattenGroups, List.mem_flatten, List.mem_map] at hr
  obtain ⟨l, ⟨g, hg, rfl⟩, hrl⟩ := hr
  obtain ⟨⟨s, hs⟩, _, hmem⟩ := hkg g hg
  exact ⟨s, by rw [hmem r hrl]; exact hs⟩

/-- Regrouping the flattened records of a well-keyed grouped structure
reproduces it exactly. -/
theorem groupByRepo_flatten (gs : List (Json × List PRRec))
    (hkg : KeyedGroups gs) (hdk : DistinctKeys gs) :
    groupByRepo (flattenGroups gs) = .ok gs := by
  induction gs with
  | nil => rfl
  | cons g rest ih =>
    obtain ⟨k, l⟩ := g
    obtain ⟨⟨ks, hks⟩, hlne, hlmem⟩ := hkg (k, l) (List.mem_cons_self _ _)
    have hks2 : k = Json.str ks := hks
    have hkgrest : KeyedGroups rest := fun g hg => hkg g (List.mem_cons_of_mem _ hg)
    have hdkrest : DistinctKeys rest := (List.pairwise_cons.mp hdk).2
    have hkne : ∀ k2 ∈ rest.map Prod.fst, k ≠ k2 := (List.pairwise_cons.mp hdk).1
    obtain ⟨hd, tl, rfl⟩ : ∃ hd tl, l = hd :: tl := by
      cases l with
      | nil => exact absurd rfl hlne
      | cons a b => exact ⟨a, b, rfl⟩
    have hflat : flattenGroups ((k, hd :: tl) :: rest) =
        (hd :: tl) ++ flattenGroups rest := by
      simp [flattenGroups]
    have hstrrest : ∀ r ∈ flattenGroups rest, ∃ s, r.repo_name = Json.str s :=
      flattenGroups_str rest hkgrest
    have hhashhead : ∀ r ∈ hd :: tl, hashable r.repo_name = true := by
      intro r hr
      rw [hlmem r hr]
      rw [hks2]
      rfl
    have hhashrest : ∀ r ∈ flattenGroups rest, hashable r.repo_name = true := by
      intro r hr
      obtain ⟨s, hs⟩ := hstrrest r hr
      rw [hs]; rfl
    have hskip : ∀ r ∈ flattenGroups rest, pyEqKey k r.repo_name = false := by
      intro r hr
      simp only [flattenGroups, List.mem_flatten, List.mem_map] at hr
      obtain ⟨l2, ⟨g2, hg2, rfl⟩, hrl2⟩ := hr
      obtain ⟨⟨s2, hs2⟩, _, hmem2⟩ := hkgrest g2 hg2
      have hrk : r.repo_name = Json.str s2 := by rw [hmem2 r hrl2]; exact hs2
      have hne : k ≠ g2.1 := hkne g2.1 (List.mem_map.mpr ⟨g2, hg2, rfl⟩)
      rw [hrk, hks2, pyEqKey_str]
      simp only [beq_eq_false_iff_ne, ne_eq]
      intro hcontra
      exact hne (by rw [hks2, hcontra, ← hs2])
    unfold groupByRepo
    rw [hflat, groupByRepoGo_append (hd :: tl) (flattenGroups rest) [] hhashhead]
    have hfold1 : (hd :: tl).foldl addRec [] = [(k, hd :: tl)] := by
      have hhd : hd.repo_name = k := hlmem hd (List.mem_cons_self _ _)
      simp only [List.foldl_cons, addRec, hhd]
      rw [foldl_addRec_fill k ks hks2 tl [hd] []
        (fun r hr => hlmem r (List.mem_cons_of_mem _ hr))]
      simp
    rw [hfold1, groupByRepoGo_ok (flattenGroups rest) [(k, hd :: tl)] hhashrest]
    rw [foldl_addRec_skip k (hd :: tl) (flattenGroups rest) [] hskip]
    have ihok := ih hkgrest hdkrest
    unfold groupByRepo at ihok
    rw [groupByRepoGo_ok (flattenGroups rest) [] hhashrest] at ihok
    have : (flattenGroups rest).foldl addRec [] = rest := by
      exact Except.ok.inj ihok
    rw [this]

/-- The fold underlying `groupByRepo` establishes the grouping
invariants. -/
theorem foldl_addRec_wf (rs : List PRRec) :
    ∀ acc, KeyedGroups acc → DistinctKeys acc →
      (∀ r ∈ rs, ∃ s, r.repo_name = Json.str s) →
      KeyedGroups (rs.foldl addRec acc) ∧ DistinctKeys (rs.foldl addRec acc) := by
  induction rs with
  | nil => intro acc h1 h2 _; exact ⟨h1, h2⟩
  | cons d ds ih =>
    intro acc h1 h2 hstr
    obtain ⟨s, hs⟩ := hstr d (List.mem_cons_self _ _)
    obtain ⟨h1a, h2a⟩ := addRec_wf acc d s hs h1 h2
    exact ih (addRec acc d) h1a h2a (fun r hr => hstr r (List.mem_cons_of_mem _ hr))

/-- On records with string repository names, `groupByRepo` succeeds and
its output satisfies the grouping invariants. -/
theorem groupByRepo_wf (rs : List PRRec)
    (hstr : ∀ r ∈ rs, ∃ s, r.repo_name = Json.str s) :
    groupByRepo rs = .ok (rs.foldl addRec []) ∧
    KeyedGroups (rs.foldl addRec []) ∧ DistinctKeys (rs.foldl addRec []) := by
  have hhash : ∀ r ∈ rs, hashable r.repo_name = true := by
    intro r hr; obtain ⟨s, hs⟩ := hstr r hr; rw [hs]; rfl
  refine ⟨groupByRepoGo_ok rs [] hhash, ?_⟩
  refine foldl_addRec_wf rs [] ?_ ?_ hstr
  · intro g hg; exact absurd hg (List.not_mem_nil g)
  · simp [DistinctKeys]

/-- Sorting each group keeps the grouping invariants. -/
theorem sortGroups_wf (gs0 : List (Json × List PRRec))
    (h1 : KeyedGroups gs0) (h2 : DistinctKeys gs0) :
    KeyedGroups (gs0.map (fun g => (g.1, sortRecords g.2))) ∧
    DistinctKeys (gs0.map (fun g => (g.1, sortRecords g.2))) := by
  constructor
  · intro g hg
    obtain ⟨g0, hg0, rfl⟩ := List.mem_map.mp hg
    obtain ⟨hks, hne, hmem⟩ := h1 g0 hg0
    have hperm : (sortRecords g0.2).Perm g0.2 := List.perm_insertionSort recLe g0.2
    refine ⟨hks, ?_, ?_⟩
    · intro hnil
      have hnil2 : sortRecords g0.2 = [] := hnil
      have hlen := hperm.length_eq
      rw [hnil2] at hlen
      exact hne (List.eq_nil_of_length_eq_zero hlen.symm)
    · intro r hr
      exact hmem r (hperm.mem_iff.mp hr)
  · have hkeys : (gs0.map (fun g => (g.1, sortRecords g.2))).map Prod.fst =
        gs0.map Prod.fst := by
      simp [List.map_map, Function.comp]
    unfold DistinctKeys
    rw [hkeys]
    exact h2

/-- Re-running grouping plus per-group sorting on the flattened output (in
report order) reproduces the output exactly, provided all repository
names are strings. -/
theorem aggregate_rerun (rs : List PRRec)
    (hstr : ∀ r ∈ rs, ∃ s, r.repo_name = Json.str s)
    (gs : List (Json × List PRRec)) (hagg : aggregate rs = .ok gs) :
    aggregate (flattenGroups gs) = .ok gs := by
  obtain ⟨hok, hkg0, hdk0⟩ := groupByRepo_wf rs hstr
  unfold aggregate at hagg
  rw [hok] at hagg
  simp only [Except.map, Except.ok.injEq] at hagg
  subst hagg
  obtain ⟨hkg, hdk⟩ := sortGroups_wf _ hkg0 hdk0
  have hre := groupByRepo_flatten _ hkg hdk
  unfold aggregate
  rw [hre]
  simp only [Except.map, Except.ok.injEq]
  have hfix : ∀ g ∈ (rs.foldl addRec []).map (fun g => (g.1, sortRecords g.2)),
      (g.1, sortRecords g.2) = g := by
    intro g hg
    obtain ⟨g0, hg0, rfl⟩ := List.mem_map.mp hg
    have hsorted : List.Sorted recLe (sortRecords g0.2) :=
      List.sorted_insertionSort recLe g0.2
    have heq : sortRecords (sortRecords g0.2) = sortRecords g0.2 :=
      List.Sorted.insertionSort_eq hsorted
    simp [heq]
  calc ((rs.foldl addRec []).map (fun g => (g.1, sortRecords g.2))).map
        (fun g => (g.1, sortRecords g.2))
      = ((rs.foldl addRec []).map (fun g => (g.1, sortRecords g.2))).map id := by
        exact List.map_congr_left hfix
    _ = (rs.foldl addRec []).map (fun g => (g.1, sortRecords g.2)) := List.map_id _

/-- Record created 2024-01-01, for the C5 scenario. -/
def recJan1 : PRRec :=
  ⟨.str "octo/repo", .str "https://github.com/octo/repo", .str "PR one",
   .str "2024-01-01T10:00:00Z", .null, .str "https://github.com/octo/repo/pull/1"⟩

/-- Record created 2024-01-02, for the C5 scenario. -/
def recJan2 : PRRec :=
  ⟨.str "octo/repo", .str "https://github.com/octo/repo", .str "PR two",
   .str "2024-01-02T10:00:00Z", .str "2024-01-05T10:00:00Z",
   .str "https://github.com/octo/repo/pull/2"⟩

/-- Record created 2024-01-03, for the C5 scenario. -/
def recJan3 : PRRec :=
  ⟨.str "octo/repo", .str "https://github.com/octo/repo", .str "PR three",
   .str "2024-01-03T10:00:00Z", .null, .str "https://github.com/octo/repo/pull/3"⟩

/-- C5: within each repository group the report lists records sorted
ascending by their creation-timestamp string; in particular three records
of one repository created 2024-01-03, 2024-01-01, 2024-01-02 are listed
in the order 2024-01-01, 2024-01-02, 2024-01-03. -/
theorem report_sorted_by_created_spec :
    (∀ (rs : List PRRec) (gs : List (Json × List PRRec)),
      aggregate rs = .ok gs → ∀ g ∈ gs, List.Sorted recLe g.2) ∧
    aggregate [recJan3, recJan1, recJan2] =
      .ok [(Json.str "octo/repo", [recJan1, recJan2, recJan3])] :=
  ⟨aggregate_group_sorted, rfl⟩

/-- Witness for C5: the sortedness statement applied to the concrete
three-record run. -/
theorem report_sorted_by_created_spec_witness :
    List.Sorted recLe [recJan1, recJan2, recJan3] :=
  report_sorted_by_created_spec.1 [recJan3, recJan1, recJan2]
    [(Json.str "octo/repo", [recJan1, recJan2, recJan3])] rfl
    (Json.str "octo/repo", [recJan1, recJan2, recJan3]) (List.mem_singleton.mpr rfl)

/-- A record tying with `tieB` on creation timestamp. -/
def tieA : PRRec :=
  ⟨.str "octo/repo", .str "https://github.com/octo/repo", .str "PR a",
   .str "2024-01-01T00:00:00Z", .null, .str "https://github.com/octo/repo/pull/4"⟩

/-- A record tying with `tieA` on creation timestamp. -/
def tieB : PRRec :=
  ⟨.str "octo/repo", .str "https://github.com/octo/repo", .str "PR b",
   .str "2024-01-01T00:00:00Z", .null, .str "https://github.com/octo/repo/pull/5"⟩

/-- Counterexample to C6 as stated: `[tieB, tieA]` is the same record set
as the output-derived `[tieA, tieB]` in another input order, yet
re-running grouping plus sort yields a different per-group ordering
(`sorted` is stable, so records tying on the creation timestamp keep
their input order). -/
theorem aggregate_idempotent_counterexample :
    flattenGroups [(Json.str "octo/repo", [tieA, tieB])] = [tieA, tieB] ∧
    aggregate [tieA, tieB] = .ok [(Json.str "octo/repo", [tieA, tieB])] ∧
    aggregate [tieB, tieA] = .ok [(Json.str "octo/repo", [tieB, tieA])] ∧
    [tieB, tieA] ≠ ([tieA, tieB] : List PRRec) := by
  refine ⟨rfl, rfl, rfl, ?_⟩
  intro h
  have h1 : tieB = tieA := (List.cons_eq_cons.mp h).1
  have h2 : Json.str "PR b" = Json.str "PR a" := congrArg PRRec.title h1
  have h3 : "PR b" = "PR a" := Json.str.inj h2
  exact absurd h3 (by decide)

/-- C6 (amended): the Aggregator's grouping-plus-sort is idempotent on
its own output taken in report order — re-running it on the flattened
output reproduces the identical grouping and per-group ordering, for
records whose repository names are strings.  For an arbitrary reordering
of the same records the property fails when creation timestamps tie (see
the counterexample), because the stable sort preserves input order among
ties and the group order follows first encounter. -/
theorem aggregate_rerun_idempotent_spec (rs : List PRRec)
    (hstr : ∀ r ∈ rs, ∃ s, r.repo_name = Json.str s)
    (gs : List (Json × List PRRec)) (hagg : aggregate rs = .ok gs) :
    aggregate (flattenGroups gs) = .ok gs :=
  aggregate_rerun rs hstr gs hagg

/-- Witness for C6 (amended) at the two-record tie input. -/
theorem aggregate_rerun_idempotent_spec_witness :
    aggregate (flattenGroups [(Json.str "octo/repo", [tieA, tieB])]) =
      .ok [(Json.str "octo/repo", [tieA, tieB])] := by
  refine aggregate_rerun_idempotent_spec [tieA, tieB] ?_ _ rfl
  intro r hr
  rcases List.mem_cons.mp hr with rfl | hr2
  · exact ⟨"octo/repo", rfl⟩
  · rcases List.mem_cons.mp hr2 with rfl | hr3
    · exact ⟨"octo/repo", rfl⟩
    · exact absurd hr3 (List.not_mem_nil r)

/-! ## Theorems about the Reporter -/

/-- C8: a record whose merge timestamp is the JSON `null` is rendered
with the explicit marker `"Not merged yet"`, never an empty or null date
string; both for the `merged` expression itself and through the full
per-record rendering. -/
theorem merged_marker_spec :
    renderMerged Json.null = .ok "Not merged yet" ∧
    (∀ (r : PRRec) (out : RenderedPR), r.merged_at = Json.null →
      renderRecord r = .ok out → out.merged = "Not merged yet" ∧ out.merged ≠ "") := by
  refine ⟨rfl, ?_⟩
  intro r out hm hr
  unfold renderRecord at hr
  rw [hm] at hr
  cases hc : formatDateField r.created_at with
  | error e => rw [hc] at hr; exact absurd hr (by simp)
  | ok created =>
    rw [hc] at hr
    have hmk : renderMerged Json.null = .ok "Not merged yet" := rfl
    rw [hmk] at hr
    simp only [Except.ok.injEq] at hr
    subst hr
    exact ⟨rfl, by simp⟩

/-- A record with a `null` merge timestamp, for the C8 witness. -/
def c8Rec : PRRec :=
  ⟨.str "octo/tools", .str "https://github.com/octo/tools", .str "PR c8",
   .str "2024-03-04T05:06:07Z", .null, .str "https://github.com/octo/tools/pull/8"⟩

/-- The rendered entry of `c8Rec`. -/
def c8Out : RenderedPR :=
  ⟨.str "PR c8", "2024-03-04", "Not merged yet", .str "https://github.com/octo/tools/pull/8"⟩

/-- Witness for C8: the marker on the concrete unmerged record. -/
theorem merged_marker_spec_witness : c8Out.merged = "Not merged yet" ∧ c8Out.merged ≠ "" :=
  merged_marker_spec.2 c8Rec c8Out rfl rfl

/-! ## Theorems about `main` -/

/-- C10: before building the search query, `main` expands `--start` to
`<start>T00:00:00Z` and `--end` to `<end>T23:59:59Z`, so the query's
creation-date range covers both endpoint days in full; `mainRun` hands
exactly `mainStart a` and `mainEnd a` to the Searcher. -/
theorem date_expansion_spec (a : Args) :
    (a.label = none →
      buildQuery a.user (mainStart a) (mainEnd a) a.label =
        "author:" ++ a.user ++ "+type:pr+created:" ++ a.start ++ "T00:00:00Z.." ++
          a.finish ++ "T23:59:59Z") ∧
    (∀ l, a.label = some l →
      buildQuery a.user (mainStart a) (mainEnd a) a.label =
        "author:" ++ a.user ++ "+type:pr+created:" ++ a.start ++ "T00:00:00Z.." ++
          a.finish ++ "T23:59:59Z" ++ "+label:" ++ l) := by
  have hz : ("T00:00:00Z.." : String) = "T00:00:00Z" ++ ".." := rfl
  constructor
  · intro h
    rw [hz]
    unfold buildQuery mainStart mainEnd
    rw [h]
    simp [String.append_assoc]
  · intro l h
    rw [hz]
    unfold buildQuery mainStart mainEnd
    rw [h]
    simp [String.append_assoc]

/-- Arguments for the C10 witness. -/
def c10Args : Args := ⟨"carol", "2024-02-01", "2024-02-29", none⟩

/-- Witness for C10: the fully expanded query for concrete dates. -/
theorem date_expansion_spec_witness :
    buildQuery "carol" (mainStart c10Args) (mainEnd c10Args) none =
      "author:carol+type:pr+created:2024-02-01T00:00:00Z..2024-02-29T23:59:59Z" :=
  ((date_expansion_spec c10Args).1 rfl).trans rfl

/-! ## Theorems about the Detail Enricher -/

/-- Search item with a detail URL `"u1"`, for C1. -/
def c1Item : Json := .obj [("pull_request", .obj [("url", .str "u1")])]

/-- A truthy detail payload that lacks the nested `base` object. -/
def c1Detail : Json := .obj [("title", .str "orphan")]

/-- Fetch oracle for C1: URL `"u1"` yields the truncated payload. -/
def c1Fetch : Json → Option Json := fun j =>
  match j with
  | .str s => if s == "u1" then some c1Detail else none
  | _ => none

/-- Counterexample to C1 as stated: a fetched detail payload missing the
nested repository object does not make the enricher return absence — the
field access raises `KeyError`, and the error escapes the enricher into
the Coordinator's result collection (`f.result()` re-raises it). -/
theorem enricher_policy_counterexample :
    fetch_pr_details c1Fetch c1Item = .error PyErr.keyError ∧
    enrich_all c1Fetch [c1Item] = .error PyErr.keyError := ⟨rfl, rfl⟩

/-- C1 (amended): the enricher returns absence exactly for the guarded
failures — a missing or falsy detail URL on the item, a fetch that
returns absence, or a falsy payload; but when a fetched truthy payload
is missing an expected field (here the nested `base` object), the field
access raises `KeyError`, which escapes the enricher and surfaces in the
Coordinator when the task's result is collected. -/
theorem enricher_policy_spec :
    (∀ (f : Json → Option Json) (pr prq url : Json),
      pyGet pr "pull_request" (.obj []) = .ok prq →
      pyGet prq "url" .null = .ok url →
      url.isTruthy = false →
      fetch_pr_details f pr = .ok none) ∧
    (∀ (f : Json → Option Json) (pr prq url : Json),
      pyGet pr "pull_request" (.obj []) = .ok prq →
      pyGet prq "url" .null = .ok url →
      url.isTruthy = true →
      (f url = none ∨ ∃ d, f url = some d ∧ d.isTruthy = false) →
      fetch_pr_details f pr = .ok none) ∧
    (∀ (f : Json → Option Json) (pr prq url d : Json),
      pyGet pr "pull_request" (.obj []) = .ok prq →
      pyGet prq "url" .null = .ok url →
      url.isTruthy = true →
      f url = some d → d.isTruthy = true →
      pyIndex d "base" = .error PyErr.keyError →
      fetch_pr_details f pr = .error PyErr.keyError ∧
      ∀ rest, enrich_all f (pr :: rest) = .error PyErr.keyError) := by
  refine ⟨?_, ?_, ?_⟩
  · intro f pr prq url h1 h2 h3
    simp [fetch_pr_details, h1, h2, h3]
  · intro f pr prq url h1 h2 h3 h4
    rcases h4 with hf | ⟨d, hf, htr⟩
    · simp [fetch_pr_details, h1, h2, h3, hf]
    · simp [fetch_pr_details, h1, h2, h3, hf, htr]
  · intro f pr prq url d h1 h2 h3 hf htr hidx
    have hmain : fetch_pr_details f pr = .error PyErr.keyError := by
      simp [fetch_pr_details, h1, h2, h3, hf, htr, hidx]
    refine ⟨hmain, ?_⟩
    intro rest
    simp [enrich_all, hmain]

/-- An item carrying no detail URL at all. -/
def c1NoUrl : Json := .obj []

/-- An item whose detail URL the Fetcher cannot retrieve. -/
def c1Dead : Json := .obj [("pull_request", .obj [("url", .str "dead")])]

/-- Witness for C1 (amended): absence for the missing URL and for the
failed fetch, `KeyError` for the truncated payload. -/
theorem enricher_policy_spec_witness :
    fetch_pr_details c1Fetch c1NoUrl = .ok none ∧
    fetch_pr_details c1Fetch c1Dead = .ok none ∧
    fetch_pr_details c1Fetch c1Item = .error PyErr.keyError :=
  ⟨enricher_policy_spec.1 c1Fetch c1NoUrl (.obj []) .null rfl rfl rfl,
   enricher_policy_spec.2.1 c1Fetch c1Dead (.obj [("url", .str "dead")]) (.str "dead")
     rfl rfl rfl (.inl rfl),
   (enricher_policy_spec.2.2 c1Fetch c1Item (.obj [("url", .str "u1")]) (.str "u1")
     c1Detail rfl rfl rfl rfl rfl rfl).1⟩

/-- C9 (amended): the process exits 0 on normal completion; on an
argument-parsing failure `argparse` exits with status 2 before any network
activity; and when the search yields zero items, `main` prints the
"No PRs found." notice, never invokes the Detail Enricher, and exits 0.
Contrary to the claim's last conjunct, parse failure is not the only
non-zero exit: an uncaught exception from a malformed detail payload also
terminates the process abnormally (see the counterexample). -/
theorem exit_status_spec :
    (∀ (f : Json → Option Json) (fuel : Nat),
      mainRun none f fuel = some (.ok ⟨2, false, 0, [], []⟩)) ∧
    (∀ (a : Args) (f : Json → Option Json) (fuel n : Nat),
      search_prs f a.user (mainStart a) (mainEnd a) a.label fuel = some (.ok ([], n)) →
      mainRun (some a) f fuel = some (.ok ⟨0, true, 0, [], []⟩)) := by
  constructor
  · intro f fuel; rfl
  · intro a f fuel n hs
    simp [mainRun, hs]

/-- Arguments for the C9 counterexample run. -/
def c9Args : Args := ⟨"dave", "2024-01-01", "2024-12-31", none⟩

/-- Search item of the C9 counterexample, detail URL `"u9"`. -/
def c9Item : Json := .obj [("pull_request", .obj [("url", .str "u9")])]

/-- Fetch oracle of the C9 counterexample: one search item whose detail
payload is truthy but lacks the `base` object. -/
def c9Fetch : Json → Option Json := fun j =>
  match j with
  | .str s =>
    if s == searchUrl (buildQuery "dave" (mainStart c9Args) (mainEnd c9Args) none) 1 then
      some (.obj [("items", .arr [c9Item])])
    else if s == "u9" then some (.obj [("title", .str "broken")])
    else none
  | _ => none

/-- Counterexample to C9's last conjunct: with successfully parsed
arguments, a malformed detail payload makes the run terminate with an
uncaught `KeyError` — a non-zero exit (status 1) without any
argument-parsing failure. -/
theorem exit_status_counterexample :
    mainRun (some c9Args) c9Fetch 2 = some (.error PyErr.keyError) := rfl

/-- Arguments for the C9 witness run. -/
def c9wArgs : Args := ⟨"erin", "2024-01-01", "2024-12-31", none⟩

/-- Fetch oracle of the C9 witness: the first search page has an empty
`items` array. -/
def c9wFetch : Json → Option Json := fun j =>
  match j with
  | .str s =>
    if s == searchUrl (buildQuery "erin" (mainStart c9wArgs) (mainEnd c9wArgs) none) 1 then
      some (.obj [("items", .arr [])])
    else none
  | _ => none

/-- Witness for C9 (amended): the zero-result run exits 0 with the
notice and no enrichment task. -/
theorem exit_status_spec_witness :
    mainRun (some c9wArgs) c9wFetch 1 = some (.ok ⟨0, true, 0, [], []⟩) :=
  exit_status_spec.2 c9wArgs c9wFetch 1 1 rfl

theorem flattenGroups_cons (g : Json × List PRRec) (rest : List (Json × List PRRec)) :
    flattenGroups (g :: rest) = g.2 ++ flattenGroups rest := by
  simp [flattenGroups]

/-- A record found in the groups after one `addRec` step was already
there or is the inserted record. -/
theorem mem_flattenGroups_addRec (acc : List (Json × List PRRec)) (d r : PRRec) :
    r ∈ flattenGroups (addRec acc d) → r ∈ flattenGroups acc ∨ r = d := by
  induction acc with
  | nil =>
    intro h
    simp [addRec, flattenGroups] at h
    exact .inr h
  | cons g rest ih =>
    obtain ⟨k, l⟩ := g
    intro h
    by_cases hk : pyEqKey k d.repo_name = true
    · rw [addRec, if_pos hk, flattenGroups_cons] at h
      rw [flattenGroups_cons]
      rcases List.mem_append.mp h with h2 | h2
      · rcases List.mem_append.mp h2 with h3 | h3
        · exact .inl (List.mem_append.mpr (.inl h3))
        · simp only [List.mem_singleton] at h3
          exact .inr h3
      · exact .inl (List.mem_append.mpr (.inr h2))
    · rw [addRec, if_neg hk, flattenGroups_cons] at h
      rw [flattenGroups_cons]
      rcases List.mem_append.mp h with h2 | h2
      · exact .inl (List.mem_append.mpr (.inl h2))
      · rcases ih h2 with h3 | h3
        · exact .inl (List.mem_append.mpr (.inr h3))
        · exact .inr h3

/-- Every record in the groups produced by the grouping loop came from
the accumulator or from the processed record list. -/
theorem mem_groupByRepoGo (rs : List PRRec) :
    ∀ (acc gs : List (Json × List PRRec)), groupByRepoGo acc rs = .ok gs →
      ∀ r ∈ flattenGroups gs, r ∈ flattenGroups acc ∨ r ∈ rs := by
  induction rs with
  | nil =>
    intro acc gs h r hr
    simp only [groupByRepoGo, Except.ok.injEq] at h
    subst h
    exact .inl hr
  | cons d ds ih =>
    intro acc gs h r hr
    by_cases hh : hashable d.repo_name = true
    · simp only [groupByRepoGo, if_pos hh] at h
      rcases ih (addRec acc d) gs h r hr with hmem | hmem
      · rcases mem_flattenGroups_addRec acc d r hmem with h2 | h2
        · exact .inl h2
        · exact .inr (by rw [h2]; exact List.mem_cons_self _ _)
      · exact .inr (List.mem_cons_of_mem _ hmem)
    · simp [groupByRepoGo, hh] at h

/-- Sorting the groups does not add records. -/
theorem mem_flatten_sortGroups (gs : List (Json × List PRRec)) (r : PRRec) :
    r ∈ flattenGroups (gs.map (fun g => (g.1, sortRecords g.2))) → r ∈ flattenGroups gs := by
  induction gs with
  | nil => intro h; exact h
  | cons g rest ih =>
    intro h
    rw [List.map_cons, flattenGroups_cons] at h
    rw [flattenGroups_cons]
    rcases List.mem_append.mp h with h2 | h2
    · exact List.mem_append.mpr
        (.inl ((List.perm_insertionSort recLe g.2).mem_iff.mp h2))
    · exact List.mem_append.mpr (.inr (ih h2))

/-- Every record the Coordinator keeps was produced by the enricher from
one of the submitted items. -/
theorem mem_enrich_all (f : Json → Option Json) (prs : List Json) :
    ∀ detailed, enrich_all f prs = .ok detailed →
      ∀ r ∈ detailed, ∃ pr ∈ prs, fetch_pr_details f pr = .ok (some r) := by
  induction prs with
  | nil =>
    intro detailed h r hr
    simp only [enrich_all, Except.ok.injEq] at h
    subst h
    exact absurd hr (List.not_mem_nil r)
  | cons pr rest ih =>
    intro detailed h r hr
    cases hd : fetch_pr_details f pr with
    | error e =>
      simp only [enrich_all, hd] at h
      exact Except.noConfusion h
    | ok o =>
      cases o with
      | none =>
        simp only [enrich_all, hd] at h
        obtain ⟨pr2, hpr2, hfd⟩ := ih detailed h r hr
        exact ⟨pr2, List.mem_cons_of_mem _ hpr2, hfd⟩
      | some rr =>
        simp only [enrich_all, hd] at h
        cases ht : enrich_all f rest with
        | error e => rw [ht] at h; exact absurd h (by simp)
        | ok tail =>
          rw [ht] at h
          simp only [Except.ok.injEq] at h
          subst h
          rcases List.mem_cons.mp hr with rfl | hr2
          · exact ⟨pr, List.mem_cons_self _ _, hd⟩
          · obtain ⟨pr2, hpr2, hfd⟩ := ih tail ht r hr2
            exact ⟨pr2, List.mem_cons_of_mem _ hpr2, hfd⟩

/-- C7 (amended): every record in the final report was produced by a
successful enrichment of one of the search items — items whose enrichment
returned absence are dropped and never appear — but the program does not
enforce non-emptiness of the repository name or title: an empty-string
name or title in the detail payload is carried into the report verbatim
(see the counterexample). -/
theorem report_records_enriched_spec (a : Args) (f : Json → Option Json) (fuel : Nat)
    (out : MainOut) (hrun : mainRun (some a) f fuel = some (.ok out)) :
    ∀ r ∈ reportRecords out,
      ∃ prs n,
        search_prs f a.user (mainStart a) (mainEnd a) a.label fuel = some (.ok (prs, n)) ∧
        ∃ pr ∈ prs, fetch_pr_details f pr = .ok (some r) := by
  intro r hr
  simp only [mainRun] at hrun
  cases hs : search_prs f a.user (mainStart a) (mainEnd a) a.label fuel with
  | none => rw [hs] at hrun; exact absurd hrun (by simp)
  | some res =>
    rw [hs] at hrun
    cases res with
    | error e => exact absurd hrun (by simp)
    | ok pn =>
      obtain ⟨prs, n⟩ := pn
      by_cases he : prs.isEmpty
      · simp only [he, if_true, Option.some.injEq, Except.ok.injEq] at hrun
        rw [← hrun] at hr
        exact absurd hr (List.not_mem_nil r)
      · simp only [he, Bool.false_eq_true, if_false] at hrun
        cases hen : enrich_all f prs with
        | error e => simp only [hen] at hrun; exact absurd hrun (by simp)
        | ok detailed =>
          simp only [hen] at hrun
          cases hgr : groupByRepo detailed with
          | error e => simp only [hgr] at hrun; exact absurd hrun (by simp)
          | ok gs =>
            simp only [hgr] at hrun
            cases hrg : renderGroups gs with
            | error e => simp only [hrg] at hrun; exact absurd hrun (by simp)
            | ok rend =>
              simp only [hrg] at hrun
              simp only [Option.some.injEq, Except.ok.injEq] at hrun
              rw [← hrun] at hr
              have hr1 : r ∈ flattenGroups gs :=
                mem_flatten_sortGroups gs r hr
              have hr2 : r ∈ detailed := by
                rcases mem_groupByRepoGo detailed [] gs hgr r hr1 with h2 | h2
                · exact absurd h2 (List.not_mem_nil r)
                · exact h2
              obtain ⟨pr, hpr, hfd⟩ := mem_enrich_all f prs detailed hen r hr2
              exact ⟨prs, n, rfl, pr, hpr, hfd⟩

/-- Arguments for the C7 counterexample run. -/
def c7Args : Args := ⟨"bob", "2024-01-01", "2024-12-31", none⟩

/-- Search item of the C7 counterexample, detail URL `"u7"`. -/
def c7Item : Json := .obj [("pull_request", .obj [("url", .str "u7")])]

/-- Detail payload with an empty repository full name and an empty
title — structurally complete, so extraction succeeds. -/
def c7Detail : Json :=
  .obj [("base", .obj [("repo", .obj [("full_name", .str ""),
          ("html_url", .str "https://github.com/x")])]),
        ("title", .str ""),
        ("created_at", .str "2024-01-02T03:04:05Z"),
        ("merged_at", .null),
        ("html_url", .str "https://github.com/x/pull/1")]

/-- The record the enricher builds from `c7Detail`: empty repository name
and empty title. -/
def c7Rec : PRRec :=
  ⟨.str "", .str "https://github.com/x", .str "", .str "2024-01-02T03:04:05Z",
   .null, .str "https://github.com/x/pull/1"⟩

/-- Fetch oracle of the C7 counterexample. -/
def c7Fetch : Json → Option Json := fun j =>
  match j with
  | .str s =>
    if s == searchUrl (buildQuery "bob" (mainStart c7Args) (mainEnd c7Args) none) 1 then
      some (.obj [("items", .arr [c7Item])])
    else if s == "u7" then some c7Detail
    else none
  | _ => none

/-- The completed run of the C7 counterexample. -/
def c7Out : MainOut :=
  ⟨0, false, 1, [(.str "", [c7Rec])],
   [(.str "", .str "https://github.com/x",
     [⟨.str "", "2024-01-02", "Not merged yet", .str "https://github.com/x/pull/1"⟩])]⟩

/-- Counterexample to C7 as stated: a detail payload whose repository
full name and title are empty strings produces a record that reaches the
final report with an empty repository name and an empty title — nothing
in the code enforces non-emptiness. -/
theorem report_nonempty_counterexample :
    mainRun (some c7Args) c7Fetch 2 = some (.ok c7Out) ∧
    reportRecords c7Out = [c7Rec] ∧
    c7Rec.repo_name = Json.str "" ∧ c7Rec.title = Json.str "" :=
  ⟨rfl, rfl, rfl, rfl⟩

/-- Witness for C7 (amended): in the concrete run, the (empty-titled)
report record is traced back to its search item and successful
enrichment. -/
theorem report_records_enriched_spec_witness :
    ∃ prs n,
      search_prs c7Fetch "bob" (mainStart c7Args) (mainEnd c7Args) none 2 =
        some (.ok (prs, n)) ∧
      ∃ pr ∈ prs, fetch_pr_details c7Fetch pr = .ok (some c7Rec) :=
  report_records_enriched_spec c7Args c7Fetch 2 c7Out rfl c7Rec
    (List.mem_singleton.mpr rfl)
